import Mathlib

/-!
Shallow embedding of src/rfc5321.rs (SMTP envelope-address grammar of the
rustyknife crate) over byte lists, with the nom combinators modelled
explicitly.  Byte strings are `List Nat`; the Rust `String` payloads of the
parsed values are ASCII by construction and are represented by their bytes.
A Rust panic (`unwrap` on a failed conversion) is a distinct outcome so that
panic-freedom is a provable statement.
-/

namespace Rfc5321

/-- Byte string of an ASCII string literal. -/
def s2b (s : String) : List Nat := s.data.map Char.toNat

/-- Result of running a grammar rule on complete byte input (nom over
CompleteByteSlice): `panic` models a Rust process abort, `fail` a recoverable
no-match, `ok` a value together with the remaining input. -/
inductive POut (α : Type) : Type where
  | panic : POut α
  | fail : POut α
  | ok : α → List Nat → POut α
deriving DecidableEq

abbrev Parser (α : Type) : Type := List Nat → POut α

/-- Sequencing, as in a do_parse chain: fail and panic both propagate. -/
def pbind {α β : Type} (p : Parser α) (f : α → Parser β) : Parser β := fun i =>
  match p i with
  | .panic => .panic
  | .fail => .fail
  | .ok a rem => f a rem

/-- Map over the parsed value (the map! combinator). -/
def pmap {α β : Type} (p : Parser α) (f : α → β) : Parser β := fun i =>
  match p i with
  | .panic => .panic
  | .fail => .fail
  | .ok a rem => .ok (f a) rem

/-- Parser returning a value without consuming input. -/
def ppure {α : Type} (a : α) : Parser α := fun i => .ok a i

/-- Ordered alternation (alt!): the second branch runs on the original input
only when the first branch fails; a panic propagates. -/
def palt {α : Type} (p q : Parser α) : Parser α := fun i =>
  match p i with
  | .fail => q i
  | r => r

/-- Exact byte-sequence match (tag!). -/
def ptag (t : List Nat) : Parser (List Nat) := fun i =>
  if i.take t.length = t then .ok t (i.drop t.length) else .fail

/-- ASCII lowercase folding of one byte. -/
def lowerByte (c : Nat) : Nat := if 65 ≤ c ∧ c ≤ 90 then c + 32 else c

/-- ASCII case-insensitive byte-sequence match (tag_no_case!). -/
def ptagNoCase (t : List Nat) : Parser (List Nat) := fun i =>
  if (i.take t.length).map lowerByte = t.map lowerByte then
    .ok (i.take t.length) (i.drop t.length)
  else .fail

/-- Fixed-size take (take!). -/
def ptake (n : Nat) : Parser (List Nat) := fun i =>
  if n ≤ i.length then .ok (i.take n) (i.drop n) else .fail

/-- Post-condition filter on the parsed value (verify!). -/
def pverify {α : Type} (p : Parser α) (f : α → Bool) : Parser α := fun i =>
  match p i with
  | .ok a rem => if f a then .ok a rem else .fail
  | r => r

/-- Longest nonempty prefix of bytes satisfying f (take_while1!). -/
def ptakeWhile1 (f : Nat → Bool) : Parser (List Nat) := fun i =>
  match i.takeWhile f with
  | [] => .fail
  | m => .ok m (i.drop m.length)

/-- Bounded greedy run: at most n bytes satisfying f, failing below m bytes
(take_while_m_n!). -/
def ptakeWhileMN (m n : Nat) (f : Nat → Bool) : Parser (List Nat) := fun i =>
  let t := (i.takeWhile f).take n
  if t.length < m then .fail else .ok t (i.drop t.length)

/-- Zero-or-more repetitions (many0!) with fuel.  Every repeated rule of this
grammar consumes at least one byte on success; as in nom, an iteration that
succeeds without consuming stops the loop with an error. -/
def pmany0F {α : Type} (p : Parser α) : Nat → Parser (List α)
  | 0, i => .ok [] i
  | fuel+1, i =>
    match p i with
    | .panic => .panic
    | .fail => .ok [] i
    | .ok a rem =>
      if rem.length < i.length then
        match pmany0F p fuel rem with
        | .panic => .panic
        | .fail => .fail
        | .ok xs rem2 => .ok (a :: xs) rem2
      else .fail

/-- Zero-or-more repetitions, fueled by the input length. -/
def pmany0 {α : Type} (p : Parser α) : Parser (List α) := fun i => pmany0F p (i.length + 1) i

/-- One-or-more repetitions (many1!). -/
def pmany1 {α : Type} (p : Parser α) : Parser (List α) :=
  pbind p fun a => pmap (pmany0 p) fun rest => a :: rest

/-- Exactly n repetitions (many_m_n! with equal bounds). -/
def pcount {α : Type} : Nat → Parser α → Parser (List α)
  | 0, _ => ppure []
  | n+1, p => pbind p fun a => pmap (pcount n p) fun xs => a :: xs

/-- Optional match (opt!): a failing inner rule consumes nothing. -/
def popt {α : Type} (p : Parser α) : Parser (Option α) := fun i =>
  match p i with
  | .panic => .panic
  | .fail => .ok none i
  | .ok a rem => .ok (some a) rem

/-- Slice of input consumed by p (recognize!): nom slices the original input
by the offset of the remaining input. -/
def precognize {α : Type} (p : Parser α) : Parser (List Nat) := fun i =>
  match p i with
  | .panic => .panic
  | .fail => .fail
  | .ok _ rem => .ok (i.take (i.length - rem.length)) rem

/-- Modelled from the spec: the consume-exactly wrapper (the exact! macro of
the missing util module) used by every top-level entrypoint; a match that
leaves unconsumed input is an ordinary failure. -/
def pexact {α : Type} (p : Parser α) : Parser α := fun i =>
  match p i with
  | .panic => .panic
  | .fail => .fail
  | .ok a rem => if rem = [] then .ok a [] else .fail

/-- Byte classifier is_alphanumeric from nom. -/
def is_alphanumeric (c : Nat) : Bool :=
  (65 ≤ c && c ≤ 90) || (97 ≤ c && c ≤ 122) || (48 ≤ c && c ≤ 57)

/-- Byte classifier is_digit from nom. -/
def is_digit (c : Nat) : Bool := 48 ≤ c && c ≤ 57

/-- Byte classifier is_hex_digit from nom. -/
def is_hex_digit (c : Nat) : Bool :=
  is_digit c || (65 ≤ c && c ≤ 70) || (97 ≤ c && c ≤ 102)

/-- Modelled from the spec: the external linear-whitespace token rule (wsp of
the missing RFC5234 module): one space or horizontal-tab byte. -/
def wsp : Parser (List Nat) :=
  pverify (ptake 1) (fun x => x.headD 0 == 32 || x.headD 0 == 9)

/-- Modelled from the spec: the atom-text byte class of the missing companion
RFC5322 module (atext: alphanumerics and the printable atext specials). -/
def is_atext (c : Nat) : Bool :=
  is_alphanumeric c ||
  c == 33 || c == 35 || c == 36 || c == 37 || c == 38 || c == 39 || c == 42 ||
  c == 43 || c == 45 || c == 47 || c == 61 || c == 63 || c == 94 || c == 95 ||
  c == 96 || c == 123 || c == 124 || c == 125 || c == 126

/-- Modelled from the spec: the external atom-text token rule (atext, imported
as atom by the source): a nonempty run of atext bytes. -/
def atom : Parser (List Nat) := ptakeWhile1 is_atext

/-- Modelled from the spec: ascii_to_string of the missing util module turns
classifier-restricted ASCII bytes into text; text is represented here by its
bytes, so the conversion is the identity. -/
def ascii_to_string (bs : List Nat) : List Nat := bs

/-- The str::from_utf8(bytes).unwrap() step: the unwrap panics unless the
bytes are valid UTF-8.  Every call site in this file first restricts the
bytes to ASCII subranges, on which UTF-8 validity is exactly the ASCII bound;
the model panics on any byte outside ASCII, which is exact on all reachable
byte runs and conservative elsewhere. -/
def fromUtf8Unwrap (bs : List Nat) : Parser (List Nat) := fun rem =>
  if bs.all (fun c => c < 128) then .ok bs rem else .panic

/-- One keyword/value ESMTP parameter (struct EsmtpParam). -/
structure EsmtpParam : Type where
  name : List Nat
  value : Option (List Nat)
deriving DecidableEq

/-- IP address value: the four octets of a v4 address, or the eight 16-bit
groups of a v6 address (std IpAddr). -/
inductive IpAddr : Type where
  | v4 : Nat → Nat → Nat → Nat → IpAddr
  | v6 : List Nat → IpAddr
deriving DecidableEq

/-- An SMTP network address literal (enum AddressLiteral). -/
inductive AddressLiteral : Type where
  | IpAddr : IpAddr → AddressLiteral
  | Tagged : List Nat → List Nat → AddressLiteral
  | FreeForm : List Nat → AddressLiteral
deriving DecidableEq

/-- Local part of an address (enum LocalPart). -/
inductive LocalPart : Type where
  | Atom : List Nat → LocalPart
  | Quoted : List Nat → LocalPart
deriving DecidableEq

/-- Domain part of an address (enum DomainPart). -/
inductive DomainPart : Type where
  | Domain : List Nat → DomainPart
  | AddressLiteral : AddressLiteral → DomainPart
deriving DecidableEq

/-- A mailbox: local part and domain part (struct Mailbox). -/
structure Mailbox : Type where
  lp : LocalPart
  dp : DomainPart
deriving DecidableEq

/-- Forward path of the RCPT TO command (enum Path). -/
inductive Path : Type where
  | Mailbox : Mailbox → Path
  | PostMaster : Path
deriving DecidableEq

/-- Reverse path of the MAIL FROM command (enum ReversePath). -/
inductive ReversePath : Type where
  | Mailbox : Mailbox → ReversePath
  | Null : ReversePath
deriving DecidableEq

/-- Result of one public operation: `panic` aborts the process, `err` is the
Err value of the Result, `ok` the Ok value. -/
inductive Outcome (α : Type) : Type where
  | panic : Outcome α
  | err : Outcome α
  | ok : α → Outcome α
deriving DecidableEq

/-- quote_localpart from the source: put a backslash before every DQUOTE and
backslash byte, keep every other byte unchanged. -/
def quote_localpart (input : List Nat) : List Nat :=
  (input.map (fun c => if c == 34 || c == 92 then [92, c] else [c])).flatten

/-- Display for LocalPart exactly as written in the source: an Atom renders
as its text; a Quoted value renders as quote_localpart of the decoded text,
with no surrounding DQUOTE bytes (source line 45 writes the escaped text
bare). -/
def displayLocalPart : LocalPart → List Nat
  | .Atom a => a
  | .Quoted q => quote_localpart q

/-- Digit value of an ASCII decimal or hexadecimal digit byte. -/
def digitVal (d : Nat) : Nat := if d ≤ 57 then d - 48 else if d ≤ 70 then d - 55 else d - 87

/-- Modelled from the spec: the number reader of the standard IPv6/IPv4 text
parser the IPv6 alternative delegates to: a greedy nonempty digit run in the
given radix, failing above maxDigits digits, and, when zero prefixes are
disallowed, failing on a leading zero with more than one digit. -/
def readNumber (radix maxDigits : Nat) (allowZeroPrefix : Bool) (bs : List Nat) :
    Option (Nat × List Nat) :=
  let ds := bs.takeWhile (fun c => if radix == 16 then is_hex_digit c else is_digit c)
  if ds.length = 0 then none
  else if maxDigits < ds.length then none
  else if !allowZeroPrefix && decide (1 < ds.length) && ds.headD 0 == 48 then none
  else some (ds.foldl (fun a d => a * radix + digitVal d) 0, bs.drop ds.length)

/-- Modelled from the spec: the embedded dotted-quad reader of the standard
IPv6 text parser (four decimal octets, each at most three digits with no zero
prefix and value at most 255, separated by dots). -/
def readIpv4Tail (bs : List Nat) : Option ((Nat × Nat × Nat × Nat) × List Nat) :=
  match readNumber 10 3 false bs with
  | none => none
  | some (a, r1) =>
    if a ≤ 255 then
      match r1 with
      | 46 :: r1a =>
        match readNumber 10 3 false r1a with
        | none => none
        | some (b, r2) =>
          if b ≤ 255 then
            match r2 with
            | 46 :: r2a =>
              match readNumber 10 3 false r2a with
              | none => none
              | some (c, r3) =>
                if c ≤ 255 then
                  match r3 with
                  | 46 :: r3a =>
                    match readNumber 10 3 false r3a with
                    | none => none
                    | some (d, r4) => if d ≤ 255 then some ((a, b, c, d), r4) else none
                  | _ => none
                else none
            | _ => none
          else none
      | _ => none
    else none

/-- Modelled from the spec: the group reader of the standard IPv6 text
parser.  Reads up to `remaining` colon-separated groups; `first` is true at
the first group, which has no leading colon.  At any position with at least
two groups left, a trailing embedded dotted quad is tried first and fills two
groups.  Returns the groups read, whether a dotted quad ended the run, and
the remaining input. -/
def readGroups : (remaining : Nat) → (first : Bool) → List Nat →
    (List Nat × Bool × List Nat)
  | 0, _, bs => ([], false, bs)
  | n+1, first, bs =>
    let afterSep : Option (List Nat) :=
      if first then some bs else match bs with | 58 :: r => some r | _ => none
    match afterSep with
    | none => ([], false, bs)
    | some bs1 =>
      match (if 1 ≤ n then readIpv4Tail bs1 else none) with
      | some ((a, b, c, d), rem) => ([a * 256 + b, c * 256 + d], true, rem)
      | none =>
        match readNumber 16 4 true bs1 with
        | none => ([], false, bs)
        | some (g, rem) =>
          let res := readGroups n false rem
          (g :: res.1, res.2.1, res.2.2)

/-- Modelled from the spec: the standard IPv6 textual-address reader
(Ipv6Addr FromStr) that the IPv6 alternative delegates to.  Head groups, then
an optional double colon with tail groups filling at most the unused space
less one, zero groups in between; the whole input must be consumed. -/
def ipv6FromStr (bs : List Nat) : Option (List Nat) :=
  let res := readGroups 8 true bs
  let head := res.1
  let headIpv4 := res.2.1
  let rem := res.2.2
  if head.length = 8 then
    if rem = [] then some head else none
  else if headIpv4 then none
  else
    match rem with
    | 58 :: 58 :: rem2 =>
      let tres := readGroups (8 - (head.length + 1)) true rem2
      let tail := tres.1
      if tres.2.2 = [] then
        some (head ++ List.replicate (8 - head.length - tail.length) 0 ++ tail)
      else none
    | _ => none

/-- Rule _alphanum: one byte verified alphanumeric. -/
def _alphanum : Parser (List Nat) :=
  pverify (ptake 1) (fun x => is_alphanumeric (x.headD 0))

/-- Rule esmtp_keyword: a recognized nonempty alphanumeric run, converted to
text by an unwrapped from_utf8. -/
def esmtp_keyword : Parser (List Nat) :=
  pbind (precognize (pbind _alphanum fun _ => pmap (pmany0 _alphanum) fun _ => ()))
    fromUtf8Unwrap

/-- Rule esmtp_value: bytes 33 to 60 or 62 to 126, converted to text by an
unwrapped from_utf8. -/
def esmtp_value : Parser (List Nat) :=
  pbind (ptakeWhile1 (fun c => (33 ≤ c && c ≤ 60) || (62 ≤ c && c ≤ 126)))
    fromUtf8Unwrap

/-- Rule esmtp_param: keyword, optionally an equal sign and a value. -/
def esmtp_param : Parser EsmtpParam :=
  pbind esmtp_keyword fun name =>
  pmap (popt (pbind (ptag [61]) fun _ => esmtp_value)) fun value =>
    EsmtpParam.mk name value

/-- Rule _esmtp_params: first parameter, then zero or more parameters each
preceded by one or more whitespace bytes, in source order. -/
def _esmtp_params : Parser (List EsmtpParam) :=
  pbind esmtp_param fun a =>
  pmap (pmany0 (pbind (pmany1 wsp) fun _ => esmtp_param)) fun b => a :: b

/-- Rule ldh_str: a nonempty alphanumeric-or-hyphen run whose last byte is
not a hyphen. -/
def ldh_str : Parser (List Nat) :=
  pverify (ptakeWhile1 (fun c => is_alphanumeric c || c == 45))
    (fun x => !(x.getLast? == some 45))

/-- Rule let_dig: one byte verified alphanumeric. -/
def let_dig : Parser (List Nat) :=
  pverify (ptake 1) (fun c => is_alphanumeric (c.headD 0))

/-- Rule sub_domain: a letter or digit followed by an optional ldh run. -/
def sub_domain : Parser (List Nat) :=
  precognize (pbind let_dig fun _ => pmap (popt ldh_str) fun _ => ())

/-- Rule domain: dot-separated sub_domain labels, recognized and kept as
text. -/
def domain : Parser DomainPart :=
  pmap
    (precognize (pbind sub_domain fun _ =>
      pmap (pmany0 (pbind (ptag [46]) fun _ => pmap sub_domain fun _ => ())) fun _ => ()))
    (fun d => DomainPart.Domain (ascii_to_string d))

/-- Rule at_domain: an at sign followed by a domain, discarded. -/
def at_domain : Parser Unit :=
  pbind (ptag [64]) fun _ => pmap domain fun _ => ()

/-- Rule a_d_l: comma-separated at_domain entries (legacy source route),
discarded. -/
def a_d_l : Parser Unit :=
  pbind at_domain fun _ =>
  pmap (pmany0 (pbind (ptag [44]) fun _ => at_domain)) fun _ => ()

/-- Rule dot_string: dot-separated atom runs, recognized as one slice. -/
def dot_string : Parser (List Nat) :=
  precognize (pbind atom fun _ =>
    pmap (pmany0 (pbind (ptag [46]) fun _ => pmap atom fun _ => ())) fun _ => ())

/-- Rule qtext_smtp: one byte in 32 to 33, 35 to 91, or 93 to 126. -/
def qtext_smtp : Parser Nat :=
  pmap
    (pverify (ptake 1) (fun x =>
      (32 ≤ x.headD 0 && x.headD 0 ≤ 33) || (35 ≤ x.headD 0 && x.headD 0 ≤ 91) ||
      (93 ≤ x.headD 0 && x.headD 0 ≤ 126)))
    (fun x => x.headD 0)

/-- Rule quoted_pair_smtp: a backslash, then one byte in 32 to 126, yielding
that byte. -/
def quoted_pair_smtp : Parser Nat :=
  pbind (ptag [92]) fun _ =>
  pmap (pverify (ptake 1) (fun x => 32 ≤ x.headD 0 && x.headD 0 ≤ 126))
    (fun x => x.headD 0)

/-- Rule qcontent_smtp: quoted text or a quoted pair. -/
def qcontent_smtp : Parser Nat := palt qtext_smtp quoted_pair_smtp

/-- Rule quoted_string: DQUOTE, decoded content bytes, DQUOTE; the collected
value holds the decoded bytes. -/
def quoted_string : Parser (List Nat) :=
  pbind (ptag [34]) fun _ =>
  pbind (pmany0 qcontent_smtp) fun qc =>
  pmap (ptag [34]) fun _ => qc

/-- Rule local_part: a dot_string atom, else a quoted string. -/
def local_part : Parser LocalPart :=
  palt (pmap dot_string (fun s => LocalPart.Atom (ascii_to_string s)))
       (pmap quoted_string LocalPart.Quoted)

/-- Decimal value of an ASCII digit run. -/
def decimalVal (ds : List Nat) : Nat := ds.foldl (fun a d => a * 10 + (d - 48)) 0

/-- The str parse to u8 inside _ip_int: values above 255 are a recoverable
map_res failure. -/
def parseU8 (ds : List Nat) : Option Nat :=
  if decimalVal ds ≤ 255 then some (decimalVal ds) else none

/-- Rule _ip_int: one to three digit bytes, unwrapped from_utf8, then parsed
as a u8 through map_res. -/
def _ip_int : Parser Nat :=
  pbind (ptakeWhileMN 1 3 is_digit) fun ds => fun rem =>
    if ds.all (fun c => c < 128) then
      match parseU8 ds with
      | some v => .ok v rem
      | none => .fail
    else .panic

/-- Rule _ipv4_literal: four dot-separated octets. -/
def _ipv4_literal : Parser AddressLiteral :=
  pbind _ip_int fun a =>
  pmap (pcount 3 (pbind (ptag [46]) fun _ => _ip_int)) fun b =>
    AddressLiteral.IpAddr (IpAddr.v4 a (b.getD 0 0) (b.getD 1 0) (b.getD 2 0))

/-- Rule _ipv6_literal: a case-insensitive IPv6: prefix, a nonempty run of
hex-digit, colon or dot bytes, unwrapped from_utf8, then the standard IPv6
reader through map_res. -/
def _ipv6_literal : Parser AddressLiteral :=
  pbind (ptagNoCase (s2b "IPv6:")) fun _ =>
  pbind (ptakeWhile1 (fun c => is_hex_digit c || c == 58 || c == 46)) fun addr => fun rem =>
    if addr.all (fun c => c < 128) then
      match ipv6FromStr addr with
      | some segs => .ok (AddressLiteral.IpAddr (IpAddr.v6 segs)) rem
      | none => .fail
    else .panic

/-- Rule dcontent: bytes 33 to 90 or 94 to 126, converted to text by an
unwrapped from_utf8. -/
def dcontent : Parser (List Nat) :=
  pbind (ptakeWhile1 (fun c => (33 ≤ c && c ≤ 90) || (94 ≤ c && c ≤ 126)))
    fromUtf8Unwrap

/-- Rule general_address_literal: an ldh tag, a colon, dcontent; the tag text
comes from an unwrapped from_utf8. -/
def general_address_literal : Parser AddressLiteral :=
  pbind ldh_str fun tg =>
  pbind (ptag [58]) fun _ =>
  pbind dcontent fun v => fun rem =>
    if tg.all (fun c => c < 128) then .ok (AddressLiteral.Tagged tg v) rem else .panic

/-- Rule _inner_address_literal: IPv4, then IPv6, then the general tagged
form, in that order. -/
def _inner_address_literal : Parser AddressLiteral :=
  palt _ipv4_literal (palt _ipv6_literal general_address_literal)

/-- Rule address_literal: an inner literal between mandatory brackets. -/
def address_literal : Parser AddressLiteral :=
  pbind (ptag [91]) fun _ =>
  pbind _inner_address_literal fun lit =>
  pmap (ptag [93]) fun _ => lit

/-- Rule mailbox: local part, at sign, then a domain or an address literal. -/
def mailbox : Parser Mailbox :=
  pbind local_part fun lp =>
  pbind (ptag [64]) fun _ =>
  pmap (palt domain (pmap address_literal DomainPart.AddressLiteral)) fun dp =>
    Mailbox.mk lp dp

/-- Rule path: a mailbox in angle brackets with an optional discarded source
route. -/
def path : Parser Mailbox :=
  pbind (ptag [60]) fun _ =>
  pbind (popt (pbind a_d_l fun _ => pmap (ptag [58]) fun _ => ())) fun _ =>
  pbind mailbox fun m =>
  pmap (ptag [62]) fun _ => m

/-- Rule reverse_path: a path, else the literal empty angle pair. -/
def reverse_path : Parser ReversePath :=
  palt (pmap path ReversePath.Mailbox)
       (pmap (ptag (s2b "<>")) fun _ => ReversePath.Null)

/-- Rule _mail_command: case-insensitive MAIL FROM:, a reverse path, then an
optional space-prefixed parameter list (empty list when absent). -/
def _mail_command : Parser (ReversePath × List EsmtpParam) :=
  pbind (ptagNoCase (s2b "MAIL FROM:")) fun _ =>
  pbind reverse_path fun addr =>
  pmap (popt (pbind (ptag [32]) fun _ => _esmtp_params)) fun params =>
    (addr, params.getD [])

/-- Rule _rcpt_command: case-insensitive RCPT TO:, the case-insensitive
postmaster literal else a path, then an optional space-prefixed parameter
list. -/
def _rcpt_command : Parser (Path × List EsmtpParam) :=
  pbind (ptagNoCase (s2b "RCPT TO:")) fun _ =>
  pbind (palt (pmap (ptagNoCase (s2b "<postmaster>")) fun _ => Path.PostMaster)
              (pmap path Path.Mailbox)) fun addr =>
  pmap (popt (pbind (ptag [32]) fun _ => _esmtp_params)) fun params =>
    (addr, params.getD [])

/-- Lowering of a parser run to the public Result: exact consumption then the
three outcomes. -/
def runExact {α : Type} (p : Parser α) (i : List Nat) : Outcome α :=
  match pexact p i with
  | .panic => .panic
  | .fail => .err
  | .ok a _ => .ok a

/-- Public mail_command: exact-consumption wrapper around _mail_command. -/
def mail_command (i : List Nat) : Outcome (ReversePath × List EsmtpParam) :=
  runExact _mail_command i

/-- Public rcpt_command: exact-consumption wrapper around _rcpt_command. -/
def rcpt_command (i : List Nat) : Outcome (Path × List EsmtpParam) :=
  runExact _rcpt_command i

/-- Public validate_address: true exactly when the whole input matches the
mailbox rule; none models a panic. -/
def validate_address (i : List Nat) : Option Bool :=
  match runExact mailbox i with
  | .panic => none
  | .err => some false
  | .ok _ => some true

/-- FromStr for AddressLiteral: run address_literal and require that the
whole input is consumed. -/
def addressLiteralFromStr (s : List Nat) : Outcome AddressLiteral :=
  match address_literal s with
  | .panic => .panic
  | .fail => .err
  | .ok v rem => if rem = [] then .ok v else .err

/-- AddressLiteral::upgrade: on a FreeForm value rerun the inner literal
alternation on the stored text and require full consumption; any other
receiver is Err. -/
def upgrade (lit : AddressLiteral) : Outcome AddressLiteral :=
  match lit with
  | .FreeForm s =>
    match _inner_address_literal s with
    | .panic => .panic
    | .fail => .err
    | .ok v rem => if rem = [] then .ok v else .err
  | _ => .err

/-- Byte class of an ESMTP parameter value, named for the statement of the
parameter round-trip. -/
def isEsmtpValueByte (c : Nat) : Bool := (33 ≤ c && c ≤ 60) || (62 ≤ c && c ≤ 126)

/-- Canonical text of one parameter per the grammar: name, then optionally
an equal sign and the value. -/
def renderEsmtpParam (p : EsmtpParam) : List Nat :=
  p.name ++ (match p.value with | some v => 61 :: v | none => [])

/-- Canonical text of the space-separated continuation of a parameter
list. -/
def restRender : List EsmtpParam → List Nat
  | [] => []
  | q :: t => 32 :: (renderEsmtpParam q ++ restRender t)

/-- Canonical text of a whole parameter list, single spaces between
parameters. -/
def renderEsmtpParams : List EsmtpParam → List Nat
  | [] => []
  | p :: ps => renderEsmtpParam p ++ restRender ps

/-- A well-formed parameter: nonempty alphanumeric name and, when present, a
nonempty value of parameter-value bytes. -/
def wfParam (p : EsmtpParam) : Bool :=
  (!p.name.isEmpty) && p.name.all is_alphanumeric &&
  (match p.value with
   | some v => (!v.isEmpty) && v.all isEsmtpValueByte
   | none => true)

/-- A parser that can never abort the process. -/
def NoPanic {α : Type} (p : Parser α) : Prop := ∀ i, p i ≠ .panic

/-- Inversion of sequencing on a successful run. -/
theorem pbind_eq_ok {α β : Type} {p : Parser α} {f : α → Parser β} {i : List Nat}
    {b : β} {rem : List Nat} :
    pbind p f i = .ok b rem ↔ ∃ a r1, p i = .ok a r1 ∧ f a r1 = .ok b rem := by
  unfold pbind
  cases h : p i <;> simp [and_assoc]

/-- Inversion of map on a successful run. -/
theorem pmap_eq_ok {α β : Type} {p : Parser α} {f : α → β} {i : List Nat}
    {b : β} {rem : List Nat} :
    pmap p f i = .ok b rem ↔ ∃ a, p i = .ok a rem ∧ b = f a := by
  unfold pmap
  cases h : p i <;> simp [and_assoc, eq_comm]
  exact and_comm

/-- Inversion of alternation on a successful run. -/
theorem palt_eq_ok {α : Type} {p q : Parser α} {i : List Nat} {b : α} {rem : List Nat} :
    palt p q i = .ok b rem ↔ p i = .ok b rem ∨ (p i = .fail ∧ q i = .ok b rem) := by
  unfold palt
  cases h : p i <;> simp

/-- Rewriting step: a successful left rule turns bind into its continuation. -/
theorem pbind_ok_step {α β : Type} {p : Parser α} {f : α → Parser β} {i : List Nat}
    {a : α} {rem : List Nat} (h : p i = .ok a rem) : pbind p f i = f a rem := by
  simp [pbind, h]

/-- Rewriting step: a failing left rule fails the whole bind. -/
theorem pbind_fail_step {α β : Type} {p : Parser α} {f : α → Parser β} {i : List Nat}
    (h : p i = .fail) : pbind p f i = .fail := by
  simp [pbind, h]

/-- Rewriting step for map on success. -/
theorem pmap_ok_step {α β : Type} {p : Parser α} {f : α → β} {i : List Nat}
    {a : α} {rem : List Nat} (h : p i = .ok a rem) : pmap p f i = .ok (f a) rem := by
  simp [pmap, h]

/-- Rewriting step for map on failure. -/
theorem pmap_fail_step {α β : Type} {p : Parser α} {f : α → β} {i : List Nat}
    (h : p i = .fail) : pmap p f i = .fail := by
  simp [pmap, h]

/-- Rewriting step for alternation taking the first branch. -/
theorem palt_ok_step {α : Type} {p q : Parser α} {i : List Nat} {a : α} {rem : List Nat}
    (h : p i = .ok a rem) : palt p q i = .ok a rem := by
  simp [palt, h]

/-- Rewriting step for alternation falling to the second branch. -/
theorem palt_fail_step {α : Type} {p q : Parser α} {i : List Nat}
    (h : p i = .fail) : palt p q i = q i := by
  simp [palt, h]

/-- Rewriting step for opt on success. -/
theorem popt_ok_step {α : Type} {p : Parser α} {i : List Nat} {a : α} {rem : List Nat}
    (h : p i = .ok a rem) : popt p i = .ok (some a) rem := by
  simp [popt, h]

/-- Rewriting step for opt on failure: nothing is consumed. -/
theorem popt_fail_step {α : Type} {p : Parser α} {i : List Nat}
    (h : p i = .fail) : popt p i = .ok none i := by
  simp [popt, h]

/-- Rewriting step for recognize on success. -/
theorem precognize_ok_step {α : Type} {p : Parser α} {i : List Nat} {a : α} {rem : List Nat}
    (h : p i = .ok a rem) :
    precognize p i = .ok (i.take (i.length - rem.length)) rem := by
  simp [precognize, h]

theorem noPanic_pbind_strong {α β : Type} {p : Parser α} {f : α → Parser β}
    (hp : NoPanic p) (hf : ∀ i a rem, p i = .ok a rem → ∀ r2, f a r2 ≠ .panic) :
    NoPanic (pbind p f) := by
  intro i
  unfold pbind
  cases h : p i with
  | panic => exact absurd h (hp i)
  | fail => simp
  | ok a rem => exact hf i a rem h rem

theorem noPanic_pbind {α β : Type} {p : Parser α} {f : α → Parser β}
    (hp : NoPanic p) (hf : ∀ a, NoPanic (f a)) : NoPanic (pbind p f) :=
  noPanic_pbind_strong hp (fun _ a _ _ r2 => hf a r2)

theorem noPanic_pmap {α β : Type} {p : Parser α} {f : α → β} (hp : NoPanic p) :
    NoPanic (pmap p f) := by
  intro i
  unfold pmap
  cases h : p i with
  | panic => exact absurd h (hp i)
  | fail => simp
  | ok a rem => simp

theorem noPanic_palt {α : Type} {p q : Parser α} (hp : NoPanic p) (hq : NoPanic q) :
    NoPanic (palt p q) := by
  intro i
  unfold palt
  cases h : p i with
  | panic => exact absurd h (hp i)
  | fail => exact hq i
  | ok a rem => simp

theorem noPanic_ppure {α : Type} (a : α) : NoPanic (ppure a) := by
  intro i; unfold ppure; simp

theorem noPanic_ptag (t : List Nat) : NoPanic (ptag t) := by
  intro i; unfold ptag; split <;> simp

theorem noPanic_ptagNoCase (t : List Nat) : NoPanic (ptagNoCase t) := by
  intro i; unfold ptagNoCase; split <;> simp

theorem noPanic_ptake (n : Nat) : NoPanic (ptake n) := by
  intro i; unfold ptake; split <;> simp

theorem noPanic_pverify {α : Type} {p : Parser α} (f : α → Bool) (hp : NoPanic p) :
    NoPanic (pverify p f) := by
  intro i
  cases h : p i with
  | panic => exact absurd h (hp i)
  | fail => simp [pverify, h]
  | ok a rem =>
    simp only [pverify, h]
    split <;> simp

theorem noPanic_ptakeWhile1 (f : Nat → Bool) : NoPanic (ptakeWhile1 f) := by
  intro i
  unfold ptakeWhile1
  cases h : i.takeWhile f <;> simp

theorem noPanic_ptakeWhileMN (m n : Nat) (f : Nat → Bool) : NoPanic (ptakeWhileMN m n f) := by
  intro i
  simp only [ptakeWhileMN]
  split <;> simp

theorem noPanic_pmany0F {α : Type} {p : Parser α} (hp : NoPanic p) :
    ∀ fuel, NoPanic (pmany0F p fuel) := by
  intro fuel
  induction fuel with
  | zero => intro i; unfold pmany0F; simp
  | succ n ih =>
    intro i
    cases h : p i with
    | panic => exact absurd h (hp i)
    | fail => simp [pmany0F, h]
    | ok a rem =>
      simp only [pmany0F, h]
      split
      · cases h2 : pmany0F p n rem with
        | panic => exact absurd h2 (ih rem)
        | fail => simp [h2]
        | ok xs rem2 => simp [h2]
      · simp

theorem noPanic_pmany0 {α : Type} {p : Parser α} (hp : NoPanic p) : NoPanic (pmany0 p) := by
  intro i
  unfold pmany0
  exact noPanic_pmany0F hp _ i

theorem noPanic_pmany1 {α : Type} {p : Parser α} (hp : NoPanic p) : NoPanic (pmany1 p) :=
  noPanic_pbind hp (fun _ => noPanic_pmap (noPanic_pmany0 hp))

theorem noPanic_pcount {α : Type} {p : Parser α} (hp : NoPanic p) :
    ∀ n, NoPanic (pcount n p) := by
  intro n
  induction n with
  | zero => exact noPanic_ppure []
  | succ n ih => exact noPanic_pbind hp (fun _ => noPanic_pmap ih)

theorem noPanic_popt {α : Type} {p : Parser α} (hp : NoPanic p) : NoPanic (popt p) := by
  intro i
  cases h : p i with
  | panic => exact absurd h (hp i)
  | fail => simp [popt, h]
  | ok a rem => simp [popt, h]

theorem noPanic_precognize {α : Type} {p : Parser α} (hp : NoPanic p) :
    NoPanic (precognize p) := by
  intro i
  cases h : p i with
  | panic => exact absurd h (hp i)
  | fail => simp [precognize, h]
  | ok a rem => simp [precognize, h]
/-- Success of verify implies success of the wrapped rule and the predicate. -/
theorem pverify_ok {p : Parser (List Nat)} {f : List Nat → Bool} {i a rem : List Nat}
    (h : pverify p f i = .ok a rem) : p i = .ok a rem ∧ f a = true := by
  cases hp : p i with
  | panic => simp [pverify, hp] at h
  | fail => simp [pverify, hp] at h
  | ok b r =>
    simp only [pverify, hp] at h
    split at h
    · rename_i hfb
      simp only [POut.ok.injEq] at h
      obtain ⟨h1, h2⟩ := h
      subst h1; subst h2
      exact ⟨rfl, hfb⟩
    · exact absurd h (by simp)

/-- Bytes matched by take_while1 satisfy the predicate, and the remaining
input is the matching drop. -/
theorem ptakeWhile1_ok {f : Nat → Bool} {i m rem : List Nat}
    (h : ptakeWhile1 f i = .ok m rem) :
    (∀ c ∈ m, f c = true) ∧ rem = i.drop m.length := by
  unfold ptakeWhile1 at h
  cases htw : i.takeWhile f with
  | nil => rw [htw] at h; exact absurd h (by simp)
  | cons x xs =>
    rw [htw] at h
    simp only [POut.ok.injEq] at h
    obtain ⟨hm, hr⟩ := h
    subst hm; subst hr
    refine ⟨?_, rfl⟩
    intro c hc
    exact List.mem_takeWhile_imp (htw ▸ hc)

/-- Bytes matched by take_while_m_n satisfy the predicate. -/
theorem ptakeWhileMN_ok {m n : Nat} {f : Nat → Bool} {i t rem : List Nat}
    (h : ptakeWhileMN m n f i = .ok t rem) : ∀ c ∈ t, f c = true := by
  simp only [ptakeWhileMN] at h
  split at h
  · exact absurd h (by simp)
  · simp only [POut.ok.injEq] at h
    obtain ⟨ht, _⟩ := h
    subst ht
    intro c hc
    exact List.mem_takeWhile_imp (List.take_subset _ _ hc)

/-- Alphanumeric bytes are ASCII. -/
theorem is_alphanumeric_lt128 {c : Nat} (h : is_alphanumeric c = true) : c < 128 := by
  simp only [is_alphanumeric, Bool.or_eq_true, Bool.and_eq_true, decide_eq_true_eq] at h
  omega

/-- Label bytes (alphanumeric or hyphen) are ASCII. -/
theorem ldh_byte_lt128 {c : Nat} (h : (is_alphanumeric c || c == 45) = true) : c < 128 := by
  simp only [Bool.or_eq_true, beq_iff_eq] at h
  rcases h with h | h
  · exact is_alphanumeric_lt128 h
  · omega

/-- Parameter-value bytes are ASCII. -/
theorem esmtp_value_byte_lt128 {c : Nat}
    (h : ((33 ≤ c && c ≤ 60) || (62 ≤ c && c ≤ 126)) = true) : c < 128 := by
  simp only [Bool.or_eq_true, Bool.and_eq_true, decide_eq_true_eq] at h
  omega

/-- Literal-content bytes are ASCII. -/
theorem dcontent_byte_lt128 {c : Nat}
    (h : ((33 ≤ c && c ≤ 90) || (94 ≤ c && c ≤ 126)) = true) : c < 128 := by
  simp only [Bool.or_eq_true, Bool.and_eq_true, decide_eq_true_eq] at h
  omega

/-- Digit bytes are ASCII. -/
theorem digit_lt128 {c : Nat} (h : is_digit c = true) : c < 128 := by
  simp only [is_digit, Bool.and_eq_true, decide_eq_true_eq] at h
  omega

/-- IPv6 body bytes (hex digit, colon or dot) are ASCII. -/
theorem hexcolon_byte_lt128 {c : Nat}
    (h : (is_hex_digit c || c == 58 || c == 46) = true) : c < 128 := by
  simp only [is_hex_digit, is_digit, Bool.or_eq_true, Bool.and_eq_true,
    decide_eq_true_eq, beq_iff_eq] at h
  omega

/-- A byte list whose members are all ASCII under f passes the all check. -/
theorem all_lt128 {bs : List Nat} {f : Nat → Bool} (hf : ∀ c, f c = true → c < 128)
    (h : ∀ c ∈ bs, f c = true) : bs.all (fun c => c < 128) = true := by
  simp only [List.all_eq_true, decide_eq_true_eq]
  exact fun c hc => hf c (h c hc)

/-- The unwrapped from_utf8 conversion succeeds on ASCII bytes. -/
theorem fromUtf8Unwrap_ok {bs rem : List Nat} (h : bs.all (fun c => c < 128) = true) :
    fromUtf8Unwrap bs rem = .ok bs rem := by
  unfold fromUtf8Unwrap
  simp [h]

/-- Success of _alphanum: one alphanumeric byte was consumed. -/
theorem _alphanum_ok {i a rem : List Nat} (h : _alphanum i = .ok a rem) :
    ∃ c t, i = c :: t ∧ rem = t ∧ is_alphanumeric c = true := by
  obtain ⟨h1, hpred⟩ := pverify_ok h
  cases i with
  | nil => simp [ptake] at h1
  | cons c t =>
    refine ⟨c, t, rfl, ?_, ?_⟩
    · simp only [ptake] at h1
      split at h1
      · simp only [POut.ok.injEq] at h1
        exact h1.2.symm ▸ rfl
      · exact absurd h1 (by simp)
    · simp only [ptake] at h1
      split at h1
      · simp only [POut.ok.injEq] at h1
        rw [← h1.1] at hpred
        simpa using hpred
      · exact absurd h1 (by simp)

/-- A many0 run of _alphanum drops an alphanumeric prefix of the input. -/
theorem pmany0F_alphanum_run :
    ∀ fuel (i : List Nat) (out : List (List Nat)) (rem : List Nat),
    pmany0F _alphanum fuel i = .ok out rem →
    ∃ k, k ≤ i.length ∧ rem = i.drop k ∧ ∀ c ∈ i.take k, is_alphanumeric c = true := by
  intro fuel
  induction fuel with
  | zero =>
    intro i out rem h
    unfold pmany0F at h
    simp only [POut.ok.injEq] at h
    exact ⟨0, Nat.zero_le _, by simp [← h.2], by simp⟩
  | succ n ih =>
    intro i out rem h
    cases ha : _alphanum i with
    | panic => simp [pmany0F, ha] at h
    | fail =>
      simp only [pmany0F, ha, POut.ok.injEq] at h
      exact ⟨0, Nat.zero_le _, by simp [← h.2], by simp⟩
    | ok a rem1 =>
      obtain ⟨c, t, hi, hr1, hc⟩ := _alphanum_ok ha
      subst hi; subst hr1
      simp only [pmany0F, ha] at h
      rw [if_pos (by simp)] at h
      cases h2 : pmany0F _alphanum n rem1 with
      | panic => rw [h2] at h; exact absurd h (by simp)
      | fail => rw [h2] at h; exact absurd h (by simp)
      | ok xs rem2 =>
        rw [h2] at h
        simp only [POut.ok.injEq] at h
        obtain ⟨k, hk, hrem, hall⟩ := ih rem1 xs rem2 h2
        refine ⟨k + 1, by simpa using Nat.succ_le_succ hk, ?_, ?_⟩
        · rw [← h.2]
          simpa using hrem
        · intro d hd
          rw [List.take_succ_cons] at hd
          rcases List.mem_cons.mp hd with h3 | h3
          · exact h3 ▸ hc
          · exact hall d h3

theorem np_alphanum : NoPanic _alphanum :=
  noPanic_pverify _ (noPanic_ptake 1)

/-- The esmtp_keyword rule cannot panic: the recognized slice consists of
alphanumeric bytes, so the unwrapped from_utf8 succeeds. -/
theorem np_esmtp_keyword : NoPanic esmtp_keyword := by
  unfold esmtp_keyword
  apply noPanic_pbind_strong
  · exact noPanic_precognize
      (noPanic_pbind np_alphanum (fun _ => noPanic_pmap (noPanic_pmany0 np_alphanum)))
  · intro i bs rem h r2
    cases hin : (pbind _alphanum fun _ => pmap (pmany0 _alphanum) fun _ => ()) i with
    | panic =>
      exact absurd hin
        ((noPanic_pbind np_alphanum (fun _ => noPanic_pmap (noPanic_pmany0 np_alphanum))) i)
    | fail => simp [precognize, hin] at h
    | ok u rem1 =>
      simp only [precognize, hin, POut.ok.injEq] at h
      obtain ⟨hbs, hrem⟩ := h
      rw [pbind_eq_ok] at hin
      obtain ⟨a1, r1, ha1, hm⟩ := hin
      rw [pmap_eq_ok] at hm
      obtain ⟨xs, hxs, _⟩ := hm
      obtain ⟨c, t, hi, hr1, hc⟩ := _alphanum_ok ha1
      subst hi; subst hr1
      unfold pmany0 at hxs
      obtain ⟨k, hk, hrem1, hall⟩ := pmany0F_alphanum_run _ _ _ _ hxs
      have hlen : (c :: r1).length - rem1.length = k + 1 := by
        rw [hrem1]
        simp only [List.length_cons, List.length_drop]
        omega
      rw [hlen] at hbs
      have hall2 : ∀ d ∈ (c :: r1).take (k + 1), is_alphanumeric d = true := by
        intro d hd
        rw [List.take_succ_cons] at hd
        rcases List.mem_cons.mp hd with h3 | h3
        · exact h3 ▸ hc
        · exact hall d h3
      rw [← hbs]
      rw [fromUtf8Unwrap_ok (all_lt128 (fun c hc2 => is_alphanumeric_lt128 hc2) hall2)]
      simp

theorem np_esmtp_value : NoPanic esmtp_value := by
  unfold esmtp_value
  apply noPanic_pbind_strong (noPanic_ptakeWhile1 _)
  intro i bs rem h r2
  obtain ⟨hmem, _⟩ := ptakeWhile1_ok h
  rw [fromUtf8Unwrap_ok (all_lt128 (fun c hc => esmtp_value_byte_lt128 hc) hmem)]
  simp

theorem np_wsp : NoPanic wsp :=
  noPanic_pverify _ (noPanic_ptake 1)

theorem np_esmtp_param : NoPanic esmtp_param :=
  noPanic_pbind np_esmtp_keyword (fun _ =>
    noPanic_pmap (noPanic_popt (noPanic_pbind (noPanic_ptag _) (fun _ => np_esmtp_value))))

theorem np_esmtp_params : NoPanic _esmtp_params :=
  noPanic_pbind np_esmtp_param (fun _ =>
    noPanic_pmap (noPanic_pmany0 (noPanic_pbind (noPanic_pmany1 np_wsp)
      (fun _ => np_esmtp_param))))

theorem np_ldh_str : NoPanic ldh_str :=
  noPanic_pverify _ (noPanic_ptakeWhile1 _)

theorem np_let_dig : NoPanic let_dig :=
  noPanic_pverify _ (noPanic_ptake 1)

theorem np_sub_domain : NoPanic sub_domain :=
  noPanic_precognize (noPanic_pbind np_let_dig
    (fun _ => noPanic_pmap (noPanic_popt np_ldh_str)))

theorem np_domain : NoPanic domain :=
  noPanic_pmap (noPanic_precognize (noPanic_pbind np_sub_domain (fun _ =>
    noPanic_pmap (noPanic_pmany0 (noPanic_pbind (noPanic_ptag _)
      (fun _ => noPanic_pmap np_sub_domain))))))

theorem np_at_domain : NoPanic at_domain :=
  noPanic_pbind (noPanic_ptag _) (fun _ => noPanic_pmap np_domain)

theorem np_a_d_l : NoPanic a_d_l :=
  noPanic_pbind np_at_domain (fun _ =>
    noPanic_pmap (noPanic_pmany0 (noPanic_pbind (noPanic_ptag _) (fun _ => np_at_domain))))

theorem np_atom : NoPanic atom :=
  noPanic_ptakeWhile1 _

theorem np_dot_string : NoPanic dot_string :=
  noPanic_precognize (noPanic_pbind np_atom (fun _ =>
    noPanic_pmap (noPanic_pmany0 (noPanic_pbind (noPanic_ptag _)
      (fun _ => noPanic_pmap np_atom)))))

theorem np_qtext_smtp : NoPanic qtext_smtp :=
  noPanic_pmap (noPanic_pverify _ (noPanic_ptake 1))

theorem np_quoted_pair_smtp : NoPanic quoted_pair_smtp :=
  noPanic_pbind (noPanic_ptag _) (fun _ => noPanic_pmap (noPanic_pverify _ (noPanic_ptake 1)))

theorem np_qcontent_smtp : NoPanic qcontent_smtp :=
  noPanic_palt np_qtext_smtp np_quoted_pair_smtp

theorem np_quoted_string : NoPanic quoted_string :=
  noPanic_pbind (noPanic_ptag _) (fun _ =>
    noPanic_pbind (noPanic_pmany0 np_qcontent_smtp) (fun _ => noPanic_pmap (noPanic_ptag _)))

theorem np_local_part : NoPanic local_part :=
  noPanic_palt (noPanic_pmap np_dot_string) (noPanic_pmap np_quoted_string)

theorem np_ip_int : NoPanic _ip_int := by
  unfold _ip_int
  apply noPanic_pbind_strong (noPanic_ptakeWhileMN 1 3 is_digit)
  intro i ds rem h r2
  have hmem := ptakeWhileMN_ok h
  have h128 := all_lt128 (fun c hc => digit_lt128 hc) hmem
  simp only [h128]
  cases parseU8 ds <;> simp

theorem np_ipv4_literal : NoPanic _ipv4_literal :=
  noPanic_pbind np_ip_int (fun _ =>
    noPanic_pmap (noPanic_pcount (noPanic_pbind (noPanic_ptag _) (fun _ => np_ip_int)) 3))

theorem np_ipv6_literal : NoPanic _ipv6_literal := by
  unfold _ipv6_literal
  apply noPanic_pbind (noPanic_ptagNoCase _)
  intro _
  apply noPanic_pbind_strong (noPanic_ptakeWhile1 _)
  intro i addr rem h r2
  obtain ⟨hmem, _⟩ := ptakeWhile1_ok h
  have h128 := all_lt128 (fun c hc => hexcolon_byte_lt128 hc) hmem
  simp only [h128]
  cases ipv6FromStr addr <;> simp

theorem np_dcontent : NoPanic dcontent := by
  unfold dcontent
  apply noPanic_pbind_strong (noPanic_ptakeWhile1 _)
  intro i bs rem h r2
  obtain ⟨hmem, _⟩ := ptakeWhile1_ok h
  rw [fromUtf8Unwrap_ok (all_lt128 (fun c hc => dcontent_byte_lt128 hc) hmem)]
  simp

theorem np_general_address_literal : NoPanic general_address_literal := by
  unfold general_address_literal
  apply noPanic_pbind_strong np_ldh_str
  intro i tg rem h r2
  obtain ⟨h1, _⟩ := pverify_ok h
  obtain ⟨hmem, _⟩ := ptakeWhile1_ok h1
  have h128 := all_lt128 (fun c hc => ldh_byte_lt128 hc) hmem
  exact noPanic_pbind (noPanic_ptag _) (fun _ =>
    noPanic_pbind np_dcontent (fun v => fun r3 => by simp [h128])) r2

theorem np_inner_address_literal : NoPanic _inner_address_literal :=
  noPanic_palt np_ipv4_literal (noPanic_palt np_ipv6_literal np_general_address_literal)

theorem np_address_literal : NoPanic address_literal :=
  noPanic_pbind (noPanic_ptag _) (fun _ =>
    noPanic_pbind np_inner_address_literal (fun _ => noPanic_pmap (noPanic_ptag _)))

theorem np_mailbox : NoPanic mailbox :=
  noPanic_pbind np_local_part (fun _ =>
    noPanic_pbind (noPanic_ptag _) (fun _ =>
      noPanic_pmap (noPanic_palt np_domain (noPanic_pmap np_address_literal))))

theorem np_path : NoPanic path :=
  noPanic_pbind (noPanic_ptag _) (fun _ =>
    noPanic_pbind (noPanic_popt (noPanic_pbind np_a_d_l (fun _ => noPanic_pmap (noPanic_ptag _))))
      (fun _ => noPanic_pbind np_mailbox (fun _ => noPanic_pmap (noPanic_ptag _))))

theorem np_reverse_path : NoPanic reverse_path :=
  noPanic_palt (noPanic_pmap np_path) (noPanic_pmap (noPanic_ptag _))

theorem np_mail_command : NoPanic _mail_command :=
  noPanic_pbind (noPanic_ptagNoCase _) (fun _ =>
    noPanic_pbind np_reverse_path (fun _ =>
      noPanic_pmap (noPanic_popt (noPanic_pbind (noPanic_ptag _) (fun _ => np_esmtp_params)))))

theorem np_rcpt_command : NoPanic _rcpt_command :=
  noPanic_pbind (noPanic_ptagNoCase _) (fun _ =>
    noPanic_pbind (noPanic_palt (noPanic_pmap (noPanic_ptagNoCase _)) (noPanic_pmap np_path))
      (fun _ =>
        noPanic_pmap (noPanic_popt (noPanic_pbind (noPanic_ptag _) (fun _ => np_esmtp_params)))))

/-- The exact-consumption wrapper of a panic-free rule is panic-free. -/
theorem noPanic_pexact {α : Type} {p : Parser α} (hp : NoPanic p) : NoPanic (pexact p) := by
  intro i
  cases h : p i with
  | panic => exact absurd h (hp i)
  | fail => simp [pexact, h]
  | ok a rem =>
    simp only [pexact, h]
    split <;> simp

/-- A run through the exact-consumption wrapper of a panic-free rule never
panics. -/
theorem runExact_no_panic {α : Type} {p : Parser α} (hp : NoPanic p) (i : List Nat) :
    runExact p i ≠ .panic := by
  cases h : pexact p i with
  | panic => exact absurd h (noPanic_pexact hp i)
  | fail => simp [runExact, h]
  | ok a rem => simp [runExact, h]

/-- The IPv4 alternative only produces IpAddr values. -/
theorem ipv4_not_freeform {i : List Nat} {v : AddressLiteral} {rem : List Nat}
    (h : _ipv4_literal i = .ok v rem) : ∀ t, v ≠ .FreeForm t := by
  unfold _ipv4_literal at h
  rw [pbind_eq_ok] at h
  obtain ⟨a, r1, _, h2⟩ := h
  rw [pmap_eq_ok] at h2
  obtain ⟨b, _, hv⟩ := h2
  subst hv
  intro t
  simp

/-- The IPv6 alternative only produces IpAddr values. -/
theorem ipv6_not_freeform {i : List Nat} {v : AddressLiteral} {rem : List Nat}
    (h : _ipv6_literal i = .ok v rem) : ∀ t, v ≠ .FreeForm t := by
  unfold _ipv6_literal at h
  rw [pbind_eq_ok] at h
  obtain ⟨a, r1, _, h2⟩ := h
  rw [pbind_eq_ok] at h2
  obtain ⟨addr, r2, _, h3⟩ := h2
  split at h3
  · cases h4 : ipv6FromStr addr with
    | none => rw [h4] at h3; exact absurd h3 (by simp)
    | some segs =>
      rw [h4] at h3
      simp only [POut.ok.injEq] at h3
      rw [← h3.1]
      intro t
      simp
  · exact absurd h3 (by simp)

/-- The general tagged alternative only produces Tagged values. -/
theorem general_not_freeform {i : List Nat} {v : AddressLiteral} {rem : List Nat}
    (h : general_address_literal i = .ok v rem) : ∀ t, v ≠ .FreeForm t := by
  unfold general_address_literal at h
  rw [pbind_eq_ok] at h
  obtain ⟨tg, r1, _, h2⟩ := h
  rw [pbind_eq_ok] at h2
  obtain ⟨u, r2, _, h3⟩ := h2
  rw [pbind_eq_ok] at h3
  obtain ⟨dv, r3, _, h4⟩ := h3
  split at h4
  · simp only [POut.ok.injEq] at h4
    rw [← h4.1]
    intro t
    simp
  · exact absurd h4 (by simp)

/-- The inner literal alternation never produces a FreeForm value. -/
theorem inner_not_freeform {i : List Nat} {v : AddressLiteral} {rem : List Nat}
    (h : _inner_address_literal i = .ok v rem) : ∀ t, v ≠ .FreeForm t := by
  unfold _inner_address_literal at h
  rw [palt_eq_ok] at h
  rcases h with h | ⟨_, h⟩
  · exact ipv4_not_freeform h
  · rw [palt_eq_ok] at h
    rcases h with h | ⟨_, h⟩
    · exact ipv6_not_freeform h
    · exact general_not_freeform h

/-- Claim C1, counterexample: the bracketed input with inner text somewhere,
which matches none of the three formal alternatives, makes the top-level
literal-from-string constructor fail with Err, not succeed with FreeForm as
the claim states. -/
theorem C1_counterexample :
    _inner_address_literal (s2b "somewhere") = .fail ∧
    addressLiteralFromStr (s2b "[somewhere]") = .err ∧
    addressLiteralFromStr (s2b "[somewhere]") ≠ .ok (.FreeForm (s2b "somewhere")) := by
  decide

/-- Claim C1 (amended): for a bracket-enclosed string whose inner parse
fails, the literal-from-string constructor fails with Err; the constructor
never returns a FreeForm value for any input (FreeForm is produced elsewhere,
not by this parser). -/
theorem C1_literal_from_str_never_freeform :
    (∀ s t, addressLiteralFromStr s ≠ .ok (.FreeForm t)) ∧
    (∀ inner, _inner_address_literal (inner ++ [93]) = .fail →
      addressLiteralFromStr ([91] ++ inner ++ [93]) = .err) := by
  constructor
  · intro s t
    cases h : address_literal s with
    | panic => simp [addressLiteralFromStr, h]
    | fail => simp [addressLiteralFromStr, h]
    | ok v rem =>
      simp only [addressLiteralFromStr, h]
      split
      · unfold address_literal at h
        rw [pbind_eq_ok] at h
        obtain ⟨u1, r1, _, h2⟩ := h
        rw [pbind_eq_ok] at h2
        obtain ⟨lit, r2, hlit, h3⟩ := h2
        rw [pmap_eq_ok] at h3
        obtain ⟨u2, _, hv⟩ := h3
        subst hv
        simp [inner_not_freeform hlit t]
      · simp
  · intro inner h
    show addressLiteralFromStr (91 :: (inner ++ [93])) = .err
    simp [addressLiteralFromStr, address_literal, pbind, ptag, h]

/-- Claim C1, witness for the amended statement at concrete inputs. -/
theorem C1_witness :
    addressLiteralFromStr (s2b "[somewhere]") ≠ .ok (.FreeForm (s2b "somewhere")) ∧
    addressLiteralFromStr ([91] ++ s2b "somewhere" ++ [93]) = .err :=
  ⟨C1_literal_from_str_never_freeform.1 _ _,
   C1_literal_from_str_never_freeform.2 (s2b "somewhere") (by decide)⟩

/-- Claim C2: validate_address is true exactly when the whole input matches
the mailbox rule with nothing left over, and the empty input is rejected. -/
theorem C2_validate_address_exact_mailbox :
    (∀ s, validate_address s = some true ↔ ∃ m, mailbox s = .ok m []) ∧
    validate_address [] = some false := by
  constructor
  · intro s
    cases h : mailbox s with
    | panic => simp [validate_address, runExact, pexact, h]
    | fail => simp [validate_address, runExact, pexact, h]
    | ok m rem =>
      cases rem with
      | nil => simp [validate_address, runExact, pexact, h]
      | cons x xs => simp [validate_address, runExact, pexact, h]
  · decide

/-- Claim C2, witness: a concrete full mailbox match through the theorem. -/
theorem C2_witness : validate_address (s2b "a@b.com") = some true :=
  (C2_validate_address_exact_mailbox.1 (s2b "a@b.com")).mpr
    ⟨Mailbox.mk (.Atom (s2b "a")) (.Domain (s2b "b.com")), by decide⟩

/-- Claim C3: upgrade on a FreeForm value reruns the inner alternation on
the stored text and succeeds exactly when it consumes the whole text; a
failed or partial inner match gives Err, a non-FreeForm receiver gives Err,
and the two concrete examples behave as stated. -/
theorem C3_upgrade_reruns_inner_literal :
    (∀ s v, upgrade (.FreeForm s) = .ok v ↔ _inner_address_literal s = .ok v []) ∧
    (∀ s, _inner_address_literal s = .fail → upgrade (.FreeForm s) = .err) ∧
    (∀ s v rem, _inner_address_literal s = .ok v rem → rem ≠ [] →
      upgrade (.FreeForm s) = .err) ∧
    (∀ ip, upgrade (.IpAddr ip) = .err) ∧
    (∀ tg v, upgrade (.Tagged tg v) = .err) ∧
    upgrade (.FreeForm (s2b "192.0.2.1")) = .ok (.IpAddr (.v4 192 0 2 1)) ∧
    upgrade (.FreeForm (s2b "somewhere")) = .err := by
  refine ⟨?_, ?_, ?_, ?_, ?_, ?_, ?_⟩
  · intro s v
    cases h : _inner_address_literal s with
    | panic => simp [upgrade, h]
    | fail => simp [upgrade, h]
    | ok v2 rem =>
      cases rem with
      | nil => simp [upgrade, h]
      | cons x xs => simp [upgrade, h]
  · intro s h
    simp [upgrade, h]
  · intro s v rem h hne
    simp [upgrade, h, hne]
  · intro ip; rfl
  · intro tg v; rfl
  · decide
  · decide

/-- Claim C3, witness at concrete inputs discharging each hypothesis. -/
theorem C3_witness :
    upgrade (.FreeForm (s2b "somewhere")) = .err ∧
    upgrade (.FreeForm (s2b "1.2.3.4x")) = .err ∧
    upgrade (.IpAddr (.v4 192 0 2 1)) = .err :=
  ⟨C3_upgrade_reruns_inner_literal.2.1 (s2b "somewhere") (by decide),
   C3_upgrade_reruns_inner_literal.2.2.1 (s2b "1.2.3.4x")
     (.IpAddr (.v4 1 2 3 4)) [120] (by decide) (by decide),
   C3_upgrade_reruns_inner_literal.2.2.2.1 (.v4 192 0 2 1)⟩

/-- Claim C4: the two protocol special cases, with the postmaster literal
matched case-insensitively. -/
theorem C4_null_and_postmaster :
    mail_command (s2b "MAIL FROM:<>") = .ok (.Null, []) ∧
    rcpt_command (s2b "RCPT TO:<postmaster>") = .ok (.PostMaster, []) ∧
    rcpt_command (s2b "RCPT TO:<PoStMaStEr>") = .ok (.PostMaster, []) := by
  decide

/-- Claim C5: no public operation can abort the process on any input: the
command parsers, the validator, the literal-from-string constructor and
upgrade always return an ordinary outcome.  Rendering is a total function of
the value in this model, so it cannot panic by construction. -/
theorem C5_no_panic :
    (∀ i, mail_command i ≠ .panic) ∧
    (∀ i, rcpt_command i ≠ .panic) ∧
    (∀ i, validate_address i ≠ none) ∧
    (∀ s, addressLiteralFromStr s ≠ .panic) ∧
    (∀ lit, upgrade lit ≠ .panic) := by
  refine ⟨?_, ?_, ?_, ?_, ?_⟩
  · exact fun i => runExact_no_panic np_mail_command i
  · exact fun i => runExact_no_panic np_rcpt_command i
  · intro i
    cases h : runExact mailbox i with
    | panic => exact absurd h (runExact_no_panic np_mailbox i)
    | err => simp [validate_address, h]
    | ok m => simp [validate_address, h]
  · intro s
    cases h : address_literal s with
    | panic => exact absurd h (np_address_literal s)
    | fail => simp [addressLiteralFromStr, h]
    | ok v rem =>
      simp only [addressLiteralFromStr, h]
      split <;> simp
  · intro lit
    cases lit with
    | FreeForm s =>
      cases h : _inner_address_literal s with
      | panic => exact absurd h (np_inner_address_literal s)
      | fail => simp [upgrade, h]
      | ok v rem =>
        simp only [upgrade, h]
        split <;> simp
    | IpAddr ip => simp [upgrade]
    | Tagged tg v => simp [upgrade]

/-- Claim C5, witness at concrete inputs. -/
theorem C5_witness :
    mail_command [] ≠ .panic ∧ rcpt_command [] ≠ .panic ∧
    validate_address [] ≠ none ∧ addressLiteralFromStr [255] ≠ .panic ∧
    upgrade (.FreeForm [255]) ≠ .panic :=
  ⟨C5_no_panic.1 [], C5_no_panic.2.1 [], C5_no_panic.2.2.1 [],
   C5_no_panic.2.2.2.1 [255], C5_no_panic.2.2.2.2 (.FreeForm [255])⟩

/-- Claim C6: parsing the escaped quoted form does store the decoded text,
and rendering re-escapes only DQUOTE and backslash; but the source renders a
Quoted local part without the surrounding DQUOTE bytes, so the rendered form
does not reparse to the same decoded Quoted value: the exact reparse of the
rendered text fails, against the round-trip the claim and the spec state. -/
theorem C6_quoted_display_not_reparseable :
    runExact local_part (s2b "\"a\\\"b\\\\c\"") = .ok (.Quoted (s2b "a\"b\\c")) ∧
    displayLocalPart (.Quoted (s2b "a\"b\\c")) = s2b "a\\\"b\\\\c" ∧
    runExact local_part (displayLocalPart (.Quoted (s2b "a\"b\\c"))) = .err := by
  decide

/-- Claim C8: a domain label ending in a hyphen is rejected: the domain rule
matches only a strict prefix of the hyphen-final input, the address-literal
rule fails on it, and the whole mailbox address fails validation. -/
theorem C8_hyphen_final_label_rejected :
    domain (s2b "foo-.example.org") = .ok (.Domain (s2b "f")) (s2b "oo-.example.org") ∧
    address_literal (s2b "foo-.example.org") = .fail ∧
    validate_address (s2b "a@foo-.example.org") = some false := by
  decide

/-- Claim C9, counterexample: the claimed failing input MAIL FROM:<a@b.com>
followed by space and the word extra in fact parses successfully, because
the trailing word is a well-formed valueless ESMTP parameter. -/
theorem C9_counterexample :
    mail_command (s2b "MAIL FROM:<a@b.com> extra") =
      .ok (.Mailbox ⟨.Atom (s2b "a"), .Domain (s2b "b.com")⟩,
        [⟨s2b "extra", none⟩]) := by
  decide

/-- Claim C9 (amended): the command parsers require exact consumption: any
run of the raw command grammar that leaves unconsumed bytes is turned into
failure by the public entrypoints, as on the space-bang-extra inputs; the
original example with a bare trailing word is not such an input, since a
space plus an alphanumeric word is a valid parameter-list suffix. -/
theorem C9_trailing_bytes_exactness :
    (∀ i v rem, _mail_command i = .ok v rem → rem ≠ [] → mail_command i = .err) ∧
    (∀ i v rem, _rcpt_command i = .ok v rem → rem ≠ [] → rcpt_command i = .err) ∧
    mail_command (s2b "MAIL FROM:<a@b.com> !extra") = .err ∧
    rcpt_command (s2b "RCPT TO:<a@b.com> !extra") = .err := by
  refine ⟨?_, ?_, by decide, by decide⟩
  · intro i v rem h hne
    simp [mail_command, runExact, pexact, h, hne]
  · intro i v rem h hne
    simp [rcpt_command, runExact, pexact, h, hne]

/-- Claim C9, witness: a raw run with leftover input turned into Err through
the theorem. -/
theorem C9_witness : mail_command (s2b "MAIL FROM:<> ?") = .err :=
  C9_trailing_bytes_exactness.1 (s2b "MAIL FROM:<> ?") (.Null, []) (s2b " ?")
    (by decide) (by decide)

/-- Claim C10: a bracketed literal with the case-insensitive IPv6: prefix
whose remainder is not made of hex-digit, colon or dot bytes makes the IPv6
alternative fail, and the alternation falls through to the general tagged
form with the tag as matched from the source text. -/
theorem C10_ipv6_prefix_falls_through_to_tagged :
    _ipv4_literal (s2b "IPv6:zz]") = .fail ∧
    _ipv6_literal (s2b "IPv6:zz]") = .fail ∧
    addressLiteralFromStr (s2b "[IPv6:zz]") = .ok (.Tagged (s2b "IPv6") (s2b "zz")) := by
  decide

/-- takeWhile over an append stops exactly at a non-matching boundary. -/
theorem takeWhile_append_boundary {f : Nat → Bool} :
    ∀ (xs ys : List Nat), (∀ c ∈ xs, f c = true) → (∀ y ∈ ys.take 1, f y = false) →
    (xs ++ ys).takeWhile f = xs := by
  intro xs
  induction xs with
  | nil =>
    intro ys _ hb
    cases ys with
    | nil => rfl
    | cons y t =>
      have := hb y (by simp)
      simp [List.takeWhile, this]
  | cons x xt ih =>
    intro ys hall hb
    have hx := hall x (by simp)
    rw [List.cons_append, List.takeWhile_cons, if_pos hx,
      ih ys (fun c hc => hall c (by simp [hc])) hb]

/-- take_while1 over an append with a nonempty matching head and a
non-matching boundary returns exactly the head. -/
theorem ptakeWhile1_append {f : Nat → Bool} {xs ys : List Nat}
    (hne : xs ≠ []) (hall : ∀ c ∈ xs, f c = true) (hb : ∀ y ∈ ys.take 1, f y = false) :
    ptakeWhile1 f (xs ++ ys) = .ok xs ys := by
  unfold ptakeWhile1
  rw [takeWhile_append_boundary xs ys hall hb]
  cases xs with
  | nil => exact absurd rfl hne
  | cons x xt =>
    simp [List.drop_left]

/-- One alphanumeric byte succeeds on a cons input. -/
theorem _alphanum_cons_ok {c : Nat} {l : List Nat} (hc : is_alphanumeric c = true) :
    _alphanum (c :: l) = .ok [c] l := by
  simp [_alphanum, pverify, ptake, hc]

/-- One alphanumeric byte fails on a non-alphanumeric head. -/
theorem _alphanum_cons_fail {c : Nat} {l : List Nat} (hc : is_alphanumeric c = false) :
    _alphanum (c :: l) = .fail := by
  simp [_alphanum, pverify, ptake, hc]

/-- One alphanumeric byte fails on empty input. -/
theorem _alphanum_nil_fail : _alphanum [] = .fail := by
  decide

/-- A failing repeated rule makes many0 return the empty list at once. -/
theorem pmany0_of_fail {α : Type} {p : Parser α} {i : List Nat} (h : p i = .fail) :
    pmany0 p i = .ok [] i := by
  simp [pmany0, pmany0F, h]

/-- The many0 loop of _alphanum consumes exactly an alphanumeric run up to a
non-alphanumeric boundary. -/
theorem pmany0F_alphanum_exact :
    ∀ (xs : List Nat), ∀ fuel, ∀ (ys : List Nat), xs.length < fuel →
    (∀ c ∈ xs, is_alphanumeric c = true) →
    (∀ y ∈ ys.take 1, is_alphanumeric y = false) →
    ∃ out, pmany0F _alphanum fuel (xs ++ ys) = .ok out ys := by
  intro xs
  induction xs with
  | nil =>
    intro fuel ys hfuel _ hb
    cases fuel with
    | zero => omega
    | succ m =>
      cases ys with
      | nil => exact ⟨[], by simp [pmany0F, _alphanum_nil_fail]⟩
      | cons y t =>
        have hy := hb y (by simp)
        exact ⟨[], by simp [pmany0F, _alphanum_cons_fail hy]⟩
  | cons x xt ih =>
    intro fuel ys hfuel hall hb
    cases fuel with
    | zero => omega
    | succ m =>
      have hx := hall x (by simp)
      have hlt : xt.length < m := by
        simp only [List.length_cons] at hfuel
        omega
      obtain ⟨out, hout⟩ := ih m ys hlt (fun c hc => hall c (by simp [hc])) hb
      refine ⟨[x] :: out, ?_⟩
      simp only [List.cons_append, pmany0F, _alphanum_cons_ok hx]
      rw [if_pos (by simp), hout]

/-- The esmtp_keyword rule consumes exactly a nonempty alphanumeric name up
to a non-alphanumeric boundary and returns it. -/
theorem esmtp_keyword_complete {name ys : List Nat} (hne : name ≠ [])
    (hall : ∀ c ∈ name, is_alphanumeric c = true)
    (hb : ∀ y ∈ ys.take 1, is_alphanumeric y = false) :
    esmtp_keyword (name ++ ys) = .ok name ys := by
  cases name with
  | nil => exact absurd rfl hne
  | cons n0 nt =>
    have h0 := hall n0 (by simp)
    obtain ⟨out, hout⟩ : ∃ out,
        pmany0 _alphanum (nt ++ ys) = .ok out ys := by
      unfold pmany0
      exact pmany0F_alphanum_exact nt ((nt ++ ys).length + 1) ys
        (by simp only [List.length_append]; omega)
        (fun c hc => hall c (by simp [hc])) hb
    have hinner : (pbind _alphanum fun _ => pmap (pmany0 _alphanum) fun _ => ())
        (n0 :: (nt ++ ys)) = .ok () ys := by
      simp only [pbind, _alphanum_cons_ok h0, pmap, hout]
    have hlen : (n0 :: (nt ++ ys)).length - ys.length = nt.length + 1 := by
      simp only [List.length_cons, List.length_append]
      omega
    have htake : (n0 :: (nt ++ ys)).take (nt.length + 1) = n0 :: nt := by
      rw [List.take_succ_cons, List.take_left]
    have h128 : (n0 :: nt).all (fun c => c < 128) = true :=
      all_lt128 (fun c hc => is_alphanumeric_lt128 hc) hall
    have hrec : precognize (pbind _alphanum fun _ => pmap (pmany0 _alphanum) fun _ => ())
        (n0 :: (nt ++ ys)) = .ok (n0 :: nt) ys := by
      rw [precognize_ok_step hinner, hlen, htake]
    show esmtp_keyword (n0 :: (nt ++ ys)) = .ok (n0 :: nt) ys
    unfold esmtp_keyword
    rw [pbind_ok_step hrec]
    exact fromUtf8Unwrap_ok h128

/-- A one-byte tag matches its byte at the head. -/
theorem ptag_single_ok {b : Nat} {l : List Nat} : ptag [b] (b :: l) = .ok [b] l := by
  simp [ptag]

/-- A one-byte tag fails on a different head byte. -/
theorem ptag_single_fail {b c : Nat} {l : List Nat} (h : c ≠ b) :
    ptag [b] (c :: l) = .fail := by
  simp [ptag, h]

/-- A one-byte tag fails on empty input. -/
theorem ptag_single_nil {b : Nat} : ptag [b] [] = .fail := by
  simp [ptag]

/-- Whitespace matches a space head. -/
theorem wsp_space {l : List Nat} : wsp (32 :: l) = .ok [32] l := by
  simp [wsp, pverify, ptake]

/-- Whitespace fails on a head that is neither space nor tab. -/
theorem wsp_fail_head {c : Nat} {l : List Nat} (h1 : c ≠ 32) (h2 : c ≠ 9) :
    wsp (c :: l) = .fail := by
  simp [wsp, pverify, ptake, h1, h2]

/-- Whitespace fails on empty input. -/
theorem wsp_nil : wsp [] = .fail := by
  decide

/-- Alphanumeric bytes are neither space nor tab. -/
theorem alnum_not_space {c : Nat} (h : is_alphanumeric c = true) : c ≠ 32 ∧ c ≠ 9 := by
  simp only [is_alphanumeric, Bool.or_eq_true, Bool.and_eq_true, decide_eq_true_eq] at h
  omega

/-- The continuation text of a parameter list starts with a space when it is
nonempty. -/
theorem restRender_sep (t : List EsmtpParam) : ∀ y ∈ (restRender t).take 1, y = 32 := by
  cases t with
  | nil => simp [restRender]
  | cons q s => simp [restRender]

/-- The equals tag fails at a space-or-end boundary. -/
theorem ptag61_fail_of_sep {ys : List Nat} (h : ∀ y ∈ ys.take 1, y = 32) :
    ptag [61] ys = .fail := by
  cases ys with
  | nil => exact ptag_single_nil
  | cons y t =>
    have := h y (by simp)
    subst this
    exact ptag_single_fail (by omega)

/-- The esmtp_value rule consumes exactly a nonempty value run up to a
space-or-end boundary. -/
theorem esmtp_value_complete {v ys : List Nat} (hne : v ≠ [])
    (hall : ∀ c ∈ v, isEsmtpValueByte c = true) (hb : ∀ y ∈ ys.take 1, y = 32) :
    esmtp_value (v ++ ys) = .ok v ys := by
  have hall2 : ∀ c ∈ v, ((33 ≤ c && c ≤ 60) || (62 ≤ c && c ≤ 126)) = true := hall
  have hb2 : ∀ y ∈ ys.take 1, ((33 ≤ y && y ≤ 60) || (62 ≤ y && y ≤ 126)) = false := by
    intro y hy
    rw [hb y hy]
    decide
  unfold esmtp_value
  rw [pbind_ok_step (ptakeWhile1_append hne hall2 hb2)]
  exact fromUtf8Unwrap_ok (all_lt128 (fun c hc => esmtp_value_byte_lt128 hc) hall)

/-- The esmtp_param rule consumes exactly the canonical text of one
well-formed parameter up to a space-or-end boundary and returns it. -/
theorem esmtp_param_complete {p : EsmtpParam} {ys : List Nat} (hwf : wfParam p = true)
    (hsep : ∀ y ∈ ys.take 1, y = 32) :
    esmtp_param (renderEsmtpParam p ++ ys) = .ok p ys := by
  obtain ⟨name, value⟩ := p
  simp only [wfParam, Bool.and_eq_true] at hwf
  obtain ⟨⟨hne0, hall0⟩, hv0⟩ := hwf
  have hne : name ≠ [] := by
    cases name with
    | nil => simp at hne0
    | cons a b => simp
  have hall : ∀ c ∈ name, is_alphanumeric c = true := List.all_eq_true.mp hall0
  cases value with
  | none =>
    have hb : ∀ y ∈ ys.take 1, is_alphanumeric y = false := by
      intro y hy
      rw [hsep y hy]
      decide
    show esmtp_param ((name ++ []) ++ ys) = .ok ⟨name, none⟩ ys
    rw [List.append_nil]
    unfold esmtp_param
    rw [pbind_ok_step (esmtp_keyword_complete hne hall hb)]
    rw [pmap_ok_step (popt_fail_step (pbind_fail_step (ptag61_fail_of_sep hsep)))]
  | some v =>
    simp only [Bool.and_eq_true] at hv0
    obtain ⟨hvne0, hvall0⟩ := hv0
    have hvne : v ≠ [] := by
      cases v with
      | nil => simp at hvne0
      | cons a b => simp
    have hvall : ∀ c ∈ v, isEsmtpValueByte c = true := List.all_eq_true.mp hvall0
    have hb : ∀ y ∈ (61 :: (v ++ ys)).take 1, is_alphanumeric y = false := by
      intro y hy
      simp only [List.take_succ_cons, List.take_zero, List.mem_singleton] at hy
      subst hy
      decide
    have hx : (pbind (ptag [61]) fun _ => esmtp_value) (61 :: (v ++ ys)) = .ok v ys := by
      rw [pbind_ok_step ptag_single_ok]
      exact esmtp_value_complete hvne hvall hsep
    show esmtp_param ((name ++ (61 :: v)) ++ ys) = .ok ⟨name, some v⟩ ys
    rw [List.append_assoc, List.cons_append]
    unfold esmtp_param
    rw [pbind_ok_step (esmtp_keyword_complete hne hall hb)]
    rw [pmap_ok_step (popt_ok_step hx)]

/-- One separator-plus-parameter step of the list loop consumes exactly one
space and one canonical parameter. -/
theorem sep_param_step {q : EsmtpParam} {rest : List Nat} (hwf : wfParam q = true)
    (hsep : ∀ y ∈ rest.take 1, y = 32) :
    (pbind (pmany1 wsp) fun _ => esmtp_param)
      (32 :: (renderEsmtpParam q ++ rest)) = .ok q rest := by
  have hq : ∃ n0 nt, renderEsmtpParam q ++ rest = n0 :: nt ∧ is_alphanumeric n0 = true := by
    obtain ⟨name, value⟩ := q
    simp only [wfParam, Bool.and_eq_true] at hwf
    obtain ⟨⟨hne0, hall0⟩, _⟩ := hwf
    cases name with
    | nil => simp at hne0
    | cons a b =>
      have ha : is_alphanumeric a = true := List.all_eq_true.mp hall0 a (by simp)
      cases value with
      | none => exact ⟨a, b ++ rest, by simp [renderEsmtpParam], ha⟩
      | some v =>
        exact ⟨a, b ++ 61 :: v ++ rest, by simp [renderEsmtpParam, List.append_assoc], ha⟩
  obtain ⟨n0, nt, heq, hn0⟩ := hq
  have hwspfail : wsp (renderEsmtpParam q ++ rest) = .fail := by
    rw [heq]
    obtain ⟨h1, h2⟩ := alnum_not_space hn0
    exact wsp_fail_head h1 h2
  have hmany1 : pmany1 wsp (32 :: (renderEsmtpParam q ++ rest)) =
      .ok [[32]] (renderEsmtpParam q ++ rest) := by
    unfold pmany1
    rw [pbind_ok_step wsp_space]
    rw [pmap_ok_step (pmany0_of_fail hwspfail)]
  rw [pbind_ok_step hmany1]
  exact esmtp_param_complete hwf hsep

/-- The separated-parameter loop of _esmtp_params consumes exactly the
canonical continuation text and returns the parameters in source order. -/
theorem pmany0F_sep_params :
    ∀ (ps : List EsmtpParam), ∀ fuel, (restRender ps).length < fuel →
    (∀ q ∈ ps, wfParam q = true) →
    pmany0F (pbind (pmany1 wsp) fun _ => esmtp_param) fuel (restRender ps) = .ok ps [] := by
  intro ps
  induction ps with
  | nil =>
    intro fuel hf _
    cases fuel with
    | zero => omega
    | succ m =>
      have hfail : (pbind (pmany1 wsp) fun _ => esmtp_param) ([] : List Nat) = .fail :=
        pbind_fail_step (pbind_fail_step wsp_nil)
      show pmany0F (pbind (pmany1 wsp) fun _ => esmtp_param) (m + 1) [] = .ok [] []
      simp [pmany0F, hfail]
  | cons q t ih =>
    intro fuel hf hwf
    cases fuel with
    | zero => omega
    | succ m =>
      have hstep := sep_param_step (hwf q (by simp)) (restRender_sep t)
      have hlt : (restRender t).length < (restRender (q :: t)).length := by
        simp only [restRender, List.length_cons, List.length_append]
        omega
      have hm : (restRender t).length < m := by
        simp only [restRender, List.length_cons, List.length_append] at hf
        omega
      have hrec := ih m hm (fun r hr => hwf r (by simp [hr]))
      show pmany0F (pbind (pmany1 wsp) fun _ => esmtp_param) (m + 1)
        (32 :: (renderEsmtpParam q ++ restRender t)) = .ok (q :: t) []
      simp only [pmany0F, hstep]
      rw [if_pos (by simpa [restRender] using hlt), hrec]

/-- The whole parameter-list rule parses the canonical text of any nonempty
well-formed parameter list back to exactly that list, in order, duplicates
kept. -/
theorem esmtp_params_complete {p : EsmtpParam} {ps : List EsmtpParam}
    (hwf : wfParam p = true) (hwfs : ∀ q ∈ ps, wfParam q = true) :
    _esmtp_params (renderEsmtpParams (p :: ps)) = .ok (p :: ps) [] := by
  have hloop : pmany0 (pbind (pmany1 wsp) fun _ => esmtp_param) (restRender ps) =
      .ok ps [] := by
    unfold pmany0
    exact pmany0F_sep_params ps ((restRender ps).length + 1) (Nat.lt_succ_self _) hwfs
  show _esmtp_params (renderEsmtpParam p ++ restRender ps) = .ok (p :: ps) []
  unfold _esmtp_params
  rw [pbind_ok_step (esmtp_param_complete hwf (restRender_sep ps))]
  rw [pmap_ok_step hloop]

/-- Claim C7: the SIZE and BODY example parses to the stated ordered pair
list, a duplicate-keyword command keeps both occurrences in source order, and
in general the parameter rule maps the canonical text of any nonempty
well-formed parameter list to exactly that list: order preserved, duplicates
never merged or deduplicated. -/
theorem C7_params_order_and_duplicates :
    mail_command (s2b "MAIL FROM:<a@example.org> SIZE=1000 BODY=8BITMIME") =
      .ok (.Mailbox ⟨.Atom (s2b "a"), .Domain (s2b "example.org")⟩,
        [⟨s2b "SIZE", some (s2b "1000")⟩, ⟨s2b "BODY", some (s2b "8BITMIME")⟩]) ∧
    mail_command (s2b "MAIL FROM:<> SIZE=1 SIZE=2") =
      .ok (.Null, [⟨s2b "SIZE", some (s2b "1")⟩, ⟨s2b "SIZE", some (s2b "2")⟩]) ∧
    (∀ p ps, wfParam p = true → (∀ q ∈ ps, wfParam q = true) →
      _esmtp_params (renderEsmtpParams (p :: ps)) = .ok (p :: ps) []) := by
  refine ⟨by decide, by decide, ?_⟩
  intro p ps hp hps
  exact esmtp_params_complete hp hps

/-- Claim C7, witness: the round trip of a duplicate-keyword list through
the theorem. -/
theorem C7_witness :
    _esmtp_params (renderEsmtpParams
      [⟨s2b "SIZE", some (s2b "1")⟩, ⟨s2b "SIZE", some (s2b "2")⟩]) =
      .ok [⟨s2b "SIZE", some (s2b "1")⟩, ⟨s2b "SIZE", some (s2b "2")⟩] [] :=
  C7_params_order_and_duplicates.2.2 _ _ (by decide) (by decide)

end Rfc5321
